import Mathlib

/-!
Verification of the `musical_keyboard` translator.

Shallow embedding of `src/src/lib.rs` (crate `musical_keyboard`): a stateful
component translating computer-keyboard key events into musical note events.

Modelling choices:
* `Octave` (Rust `i32` from the `pitch_calc` crate) is modelled as `Int`.
  Every arithmetic step on the octave is guarded (`> -2` before decrement,
  `< 12` before increment), so no `i32` wrap-around is reachable and the
  unbounded-integer model is exact.
* `Velocity` (Rust `f32`) is modelled as `ℚ` with exact steps of `5/100`.
  The guards compare against `0.0` and `1.0` and the step is `0.05`; the
  qualitative behaviour (which branch is taken, whether a bound can be
  overshot) is the same in `f32` and in exact arithmetic for the values
  considered here.
* The `HashMap<Key, Octave>` field `currently_pressed_keys` is modelled as a
  total function `Key → Option Int` (`none` = absent).  `HashMap::insert`
  returns the previous value and stores the new one unconditionally — this
  detail is preserved faithfully, as it is observable.
-/

/-- The twelve semitone letters, from the external `pitch_calc` crate. -/
inductive Letter
  | C | Csh | D | Dsh | E | F | Fsh | G | Gsh | A | Ash | B
  deriving DecidableEq, Repr

/-- Rust: `pub type Octave = i32` (re-exported from `pitch_calc`). -/
abbrev Octave := Int

/-- Rust: `pub type Velocity = f32`; modelled as an exact rational. -/
abbrev Velocity := ℚ

/-- The 22 keys accepted by the keyboard (Rust `enum Key`). -/
inductive Key
  | A | W | S | E | D | F | T | G | Y | H | U | J
  | K | O | L | P | Semicolon | Quote
  | Z | X
  | C | V
  deriving DecidableEq, Repr, Fintype

/-- Rust `struct NoteOn { letter, octave, velocity }`. -/
structure NoteOn where
  letter : Letter
  octave : Int
  velocity : ℚ
  deriving DecidableEq, Repr

/-- Rust `struct NoteOff { letter, octave }`. -/
structure NoteOff where
  letter : Letter
  octave : Int
  deriving DecidableEq, Repr

/-- Rust `enum NoteEvent { On(NoteOn), Off(NoteOff) }`. -/
inductive NoteEvent
  | On (ev : NoteOn)
  | Off (ev : NoteOff)
  deriving DecidableEq, Repr

/-- Rust `struct MusicalKeyboard`; `currently_pressed_keys` is the
`HashMap<Key, Octave>` modelled as a total function to `Option`. -/
structure MusicalKeyboard where
  octave : Int
  velocity : ℚ
  currently_pressed_keys : Key → Option Int

namespace MusicalKeyboard

/-- Rust `MusicalKeyboard::new(octave, velocity)`: the given values and an
empty pressed-key map. -/
def new (octave : Octave) (velocity : Velocity) : MusicalKeyboard :=
  { octave := octave, velocity := velocity, currently_pressed_keys := fun _ => none }

/-- Rust `impl Default`: `MusicalKeyboard::new(2, 1.0)`. -/
def defaultKb : MusicalKeyboard := new 2 1

/-- The match table inside `maybe_note`: relative octave offset and letter
for each of the 18 note keys, `none` for the four modifier keys. -/
def noteTable : Key → Option (Octave × Letter)
  | Key.A => some (0, Letter.C)
  | Key.W => some (0, Letter.Csh)
  | Key.S => some (0, Letter.D)
  | Key.E => some (0, Letter.Dsh)
  | Key.D => some (0, Letter.E)
  | Key.F => some (0, Letter.F)
  | Key.T => some (0, Letter.Fsh)
  | Key.G => some (0, Letter.G)
  | Key.Y => some (0, Letter.Gsh)
  | Key.H => some (0, Letter.A)
  | Key.U => some (0, Letter.Ash)
  | Key.J => some (0, Letter.B)
  | Key.K => some (1, Letter.C)
  | Key.O => some (1, Letter.Csh)
  | Key.L => some (1, Letter.D)
  | Key.P => some (1, Letter.Dsh)
  | Key.Semicolon => some (1, Letter.E)
  | Key.Quote => some (1, Letter.F)
  | _ => none

/-- Rust `maybe_note`: `Some((letter, octave + self.octave))` for a note key,
`None` otherwise.  (The Rust method takes `&mut self` but never mutates.) -/
def maybe_note (kb : MusicalKeyboard) (key : Key) : Option (Letter × Octave) :=
  (noteTable key).map (fun p => (p.2, p.1 + kb.octave))

/-- Model of `HashMap::insert`: stores the new value and returns the
previous one. -/
def mapInsert (m : Key → Option Octave) (key : Key) (v : Octave) :
    Option Octave × (Key → Option Octave) :=
  (m key, fun k2 => if k2 = key then some v else m k2)

/-- Model of `HashMap::remove`: deletes the key and returns the previous
value. -/
def mapRemove (m : Key → Option Octave) (key : Key) :
    Option Octave × (Key → Option Octave) :=
  (m key, fun k2 => if k2 = key then none else m k2)

/-- Rust `maybe_note_on`: resolve the key; insert the absolute octave into
`currently_pressed_keys`; emit `NoteOn` only when the key was not already
present.  NOTE: the insert happens in both cases — when the key was already
present its stored octave is silently overwritten with the current absolute
octave, exactly as `HashMap::insert` does in the source. -/
def maybe_note_on (kb : MusicalKeyboard) (key : Key) :
    Option NoteOn × MusicalKeyboard :=
  match maybe_note kb key with
  | none => (none, kb)
  | some (letter, octave) =>
    let ins := mapInsert kb.currently_pressed_keys key octave
    let kb2 := { kb with currently_pressed_keys := ins.2 }
    match ins.1 with
    | some _existing_note => (none, kb2)
    | none =>
      (some { letter := letter, octave := octave, velocity := kb.velocity }, kb2)

/-- Rust `maybe_note_off`: resolve the key; remove it from
`currently_pressed_keys`; emit `NoteOff` with the stored octave when one was
present, else with the current absolute octave. -/
def maybe_note_off (kb : MusicalKeyboard) (key : Key) :
    Option NoteOff × MusicalKeyboard :=
  match maybe_note kb key with
  | none => (none, kb)
  | some (letter, octave) =>
    let rem := mapRemove kb.currently_pressed_keys key
    let kb2 := { kb with currently_pressed_keys := rem.2 }
    match rem.1 with
    | none => (some { letter := letter, octave := octave }, kb2)
    | some old_octave => (some { letter := letter, octave := old_octave }, kb2)

/-- Rust `key_pressed`: Z/X step the octave (guarded), C/V step the velocity
(guarded), any other key goes through `maybe_note_on`. -/
def key_pressed (kb : MusicalKeyboard) (key : Key) :
    Option NoteOn × MusicalKeyboard :=
  match key with
  | Key.Z =>
    (none, if kb.octave > -2 then { kb with octave := kb.octave - 1 } else kb)
  | Key.X =>
    (none, if kb.octave < 12 then { kb with octave := kb.octave + 1 } else kb)
  | Key.C =>
    (none, if kb.velocity > 0 then { kb with velocity := kb.velocity - 5/100 } else kb)
  | Key.V =>
    (none, if kb.velocity < 1 then { kb with velocity := kb.velocity + 5/100 } else kb)
  | other => maybe_note_on kb other

/-- Rust `key_released`: delegates to `maybe_note_off`. -/
def key_released (kb : MusicalKeyboard) (key : Key) :
    Option NoteOff × MusicalKeyboard :=
  maybe_note_off kb key

end MusicalKeyboard

open MusicalKeyboard

/-- An input event fed to the keyboard by the host. -/
inductive Ev
  | press (k : Key)
  | release (k : Key)
  deriving DecidableEq, Repr

/-- One event step: the state after `key_pressed` / `key_released`. -/
def step (kb : MusicalKeyboard) : Ev → MusicalKeyboard
  | Ev.press k => (key_pressed kb k).2
  | Ev.release k => (key_released kb k).2

/-- The state after a finite sequence of events. -/
def run (kb : MusicalKeyboard) (evs : List Ev) : MusicalKeyboard :=
  evs.foldl step kb

/-- The state after a finite sequence of presses only. -/
def runPress (kb : MusicalKeyboard) (ks : List Key) : MusicalKeyboard :=
  ks.foldl (fun kb2 k => (key_pressed kb2 k).2) kb

/-- Number of entries in the pressed-key map. -/
def pressedCount (kb : MusicalKeyboard) : Nat :=
  (Finset.univ.filter (fun k => (kb.currently_pressed_keys k).isSome)).card

/-- The 18 note keys in table order. -/
def noteKeys : List Key :=
  [Key.A, Key.W, Key.S, Key.E, Key.D, Key.F, Key.T, Key.G, Key.Y,
   Key.H, Key.U, Key.J, Key.K, Key.O, Key.L, Key.P, Key.Semicolon, Key.Quote]

example : (key_pressed defaultKb Key.A).1 =
    some { letter := Letter.C, octave := 2, velocity := 1 } := by decide

example : (key_released defaultKb Key.F).1 =
    some { letter := Letter.F, octave := 2 } := by decide

section Helpers

variable (kb : MusicalKeyboard) (key : Key)

lemma maybe_note_on_octave : (maybe_note_on kb key).2.octave = kb.octave := by
  unfold maybe_note_on
  rcases h : maybe_note kb key with _ | ⟨l, o⟩
  · rfl
  · rcases h2 : kb.currently_pressed_keys key with _ | o2 <;>
      simp [mapInsert, h2]

lemma maybe_note_on_velocity : (maybe_note_on kb key).2.velocity = kb.velocity := by
  unfold maybe_note_on
  rcases h : maybe_note kb key with _ | ⟨l, o⟩
  · rfl
  · rcases h2 : kb.currently_pressed_keys key with _ | o2 <;>
      simp [mapInsert, h2]

lemma maybe_note_off_octave : (maybe_note_off kb key).2.octave = kb.octave := by
  unfold maybe_note_off
  rcases h : maybe_note kb key with _ | ⟨l, o⟩
  · rfl
  · rcases h2 : kb.currently_pressed_keys key with _ | o2 <;>
      simp [mapRemove, h2]

lemma maybe_note_off_velocity : (maybe_note_off kb key).2.velocity = kb.velocity := by
  unfold maybe_note_off
  rcases h : maybe_note kb key with _ | ⟨l, o⟩
  · rfl
  · rcases h2 : kb.currently_pressed_keys key with _ | o2 <;>
      simp [mapRemove, h2]

lemma maybe_note_off_pressed_other (k2 : Key) (hne : k2 ≠ key) :
    (maybe_note_off kb key).2.currently_pressed_keys k2 =
      kb.currently_pressed_keys k2 := by
  unfold maybe_note_off
  rcases h : maybe_note kb key with _ | ⟨l, o⟩
  · rfl
  · rcases h2 : kb.currently_pressed_keys key with _ | o2 <;>
      simp [mapRemove, h2, hne]

lemma maybe_note_on_pressed_other (k2 : Key) (hne : k2 ≠ key) :
    (maybe_note_on kb key).2.currently_pressed_keys k2 =
      kb.currently_pressed_keys k2 := by
  unfold maybe_note_on
  rcases h : maybe_note kb key with _ | ⟨l, o⟩
  · rfl
  · rcases h2 : kb.currently_pressed_keys key with _ | o2 <;>
      simp [mapInsert, h2, hne]

lemma key_pressed_octave_of_note (hz : key ≠ Key.Z) (hx : key ≠ Key.X) :
    (key_pressed kb key).2.octave = kb.octave := by
  cases key <;> first
    | exact absurd rfl hz
    | exact absurd rfl hx
    | exact maybe_note_on_octave kb _
    | (simp only [key_pressed]; split <;> rfl)

end Helpers

/-- C5: `maybe_note` (the `resolve` of the spec) is defined for exactly the
18 note keys and matches the spec table; the absolute octave is the relative
offset plus `keyboard.octave`; the 18 `(relative_offset, letter)` pairs are
pairwise distinct. -/
theorem maybe_note_matches_spec_table (kb : MusicalKeyboard) :
    maybe_note kb Key.A = some (Letter.C, 0 + kb.octave) ∧
    maybe_note kb Key.W = some (Letter.Csh, 0 + kb.octave) ∧
    maybe_note kb Key.S = some (Letter.D, 0 + kb.octave) ∧
    maybe_note kb Key.E = some (Letter.Dsh, 0 + kb.octave) ∧
    maybe_note kb Key.D = some (Letter.E, 0 + kb.octave) ∧
    maybe_note kb Key.F = some (Letter.F, 0 + kb.octave) ∧
    maybe_note kb Key.T = some (Letter.Fsh, 0 + kb.octave) ∧
    maybe_note kb Key.G = some (Letter.G, 0 + kb.octave) ∧
    maybe_note kb Key.Y = some (Letter.Gsh, 0 + kb.octave) ∧
    maybe_note kb Key.H = some (Letter.A, 0 + kb.octave) ∧
    maybe_note kb Key.U = some (Letter.Ash, 0 + kb.octave) ∧
    maybe_note kb Key.J = some (Letter.B, 0 + kb.octave) ∧
    maybe_note kb Key.K = some (Letter.C, 1 + kb.octave) ∧
    maybe_note kb Key.O = some (Letter.Csh, 1 + kb.octave) ∧
    maybe_note kb Key.L = some (Letter.D, 1 + kb.octave) ∧
    maybe_note kb Key.P = some (Letter.Dsh, 1 + kb.octave) ∧
    maybe_note kb Key.Semicolon = some (Letter.E, 1 + kb.octave) ∧
    maybe_note kb Key.Quote = some (Letter.F, 1 + kb.octave) ∧
    maybe_note kb Key.Z = none ∧
    maybe_note kb Key.X = none ∧
    maybe_note kb Key.C = none ∧
    maybe_note kb Key.V = none ∧
    (noteKeys.map noteTable).Nodup :=
  ⟨rfl, rfl, rfl, rfl, rfl, rfl, rfl, rfl, rfl, rfl, rfl, rfl, rfl, rfl, rfl,
   rfl, rfl, rfl, rfl, rfl, rfl, rfl, by decide⟩

/-- C3: pressing a note key that is not currently held inserts its absolute
octave into `currently_pressed_keys` and returns a `NoteOn` with the table
letter, that absolute octave, and the keyboard's current velocity. -/
theorem key_pressed_fresh_note (kb : MusicalKeyboard) (key : Key)
    (off : Octave) (l : Letter)
    (h : noteTable key = some (off, l))
    (h2 : kb.currently_pressed_keys key = none) :
    (key_pressed kb key).1 =
      some { letter := l, octave := off + kb.octave, velocity := kb.velocity } ∧
    (key_pressed kb key).2.currently_pressed_keys key = some (off + kb.octave) := by
  cases key <;>
    simp_all [key_pressed, maybe_note_on, maybe_note, noteTable, mapInsert]

/-- Witness for C3 at the default keyboard and key A. -/
theorem key_pressed_fresh_note_witness :
    (key_pressed defaultKb Key.A).1 =
      some { letter := Letter.C, octave := 0 + defaultKb.octave,
             velocity := defaultKb.velocity } ∧
    (key_pressed defaultKb Key.A).2.currently_pressed_keys Key.A =
      some (0 + defaultKb.octave) :=
  key_pressed_fresh_note defaultKb Key.A 0 Letter.C rfl rfl

/-- C4: releasing a held note key removes it and emits `NoteOff` with the
stored octave; releasing an unheld note key emits `NoteOff` with the current
absolute octave; releasing a modifier key emits nothing. -/
theorem key_released_behaviour (kb : MusicalKeyboard) (key : Key) :
    (∀ off l stored, noteTable key = some (off, l) →
        kb.currently_pressed_keys key = some stored →
        (key_released kb key).1 = some { letter := l, octave := stored } ∧
        (key_released kb key).2.currently_pressed_keys key = none) ∧
    (∀ off l, noteTable key = some (off, l) →
        kb.currently_pressed_keys key = none →
        (key_released kb key).1 = some { letter := l, octave := off + kb.octave }) ∧
    (key_released kb Key.Z).1 = none ∧
    (key_released kb Key.X).1 = none ∧
    (key_released kb Key.C).1 = none ∧
    (key_released kb Key.V).1 = none := by
  refine ⟨?_, ?_, rfl, rfl, rfl, rfl⟩
  · intro off l stored h hs
    cases key <;>
      simp_all [key_released, maybe_note_off, maybe_note, noteTable, mapRemove]
  · intro off l h hs
    cases key <;>
      simp_all [key_released, maybe_note_off, maybe_note, noteTable, mapRemove]

/-- Witness for C4: release of held A emits the stored octave; release of
never-pressed F emits the current absolute octave. -/
theorem key_released_behaviour_witness :
    ((key_released ((key_pressed defaultKb Key.A).2) Key.A).1 =
        some { letter := Letter.C, octave := 2 } ∧
     (key_released ((key_pressed defaultKb Key.A).2) Key.A).2.currently_pressed_keys
        Key.A = none) ∧
    (key_released defaultKb Key.F).1 =
      some { letter := Letter.F, octave := 0 + defaultKb.octave } :=
  ⟨(key_released_behaviour _ Key.A).1 0 Letter.C 2 rfl (by decide),
   (key_released_behaviour defaultKb Key.F).2.1 0 Letter.F rfl rfl⟩

/-- C10: `key_released` never changes octave, velocity, or any pressed entry
other than the released key itself; Z/X presses change only the octave
field; C/V presses change only the velocity field. -/
theorem frame_effects (kb : MusicalKeyboard) (key : Key) :
    ((key_released kb key).2.octave = kb.octave ∧
     (key_released kb key).2.velocity = kb.velocity ∧
     ∀ k2, k2 ≠ key →
       (key_released kb key).2.currently_pressed_keys k2 =
         kb.currently_pressed_keys k2) ∧
    ((key_pressed kb Key.Z).2.velocity = kb.velocity ∧
     (key_pressed kb Key.Z).2.currently_pressed_keys = kb.currently_pressed_keys) ∧
    ((key_pressed kb Key.X).2.velocity = kb.velocity ∧
     (key_pressed kb Key.X).2.currently_pressed_keys = kb.currently_pressed_keys) ∧
    ((key_pressed kb Key.C).2.octave = kb.octave ∧
     (key_pressed kb Key.C).2.currently_pressed_keys = kb.currently_pressed_keys) ∧
    ((key_pressed kb Key.V).2.octave = kb.octave ∧
     (key_pressed kb Key.V).2.currently_pressed_keys = kb.currently_pressed_keys) := by
  refine ⟨⟨maybe_note_off_octave kb key, maybe_note_off_velocity kb key,
          fun k2 h => maybe_note_off_pressed_other kb key k2 h⟩,
        ?_, ?_, ?_, ?_⟩ <;>
    constructor <;> (simp only [key_pressed]; split <;> rfl)

/-- Witness for C10 at key A and the distinct key S. -/
theorem frame_effects_witness :
    (key_released defaultKb Key.A).2.currently_pressed_keys Key.S =
      defaultKb.currently_pressed_keys Key.S :=
  (frame_effects defaultKb Key.A).1.2.2 Key.S (by decide)

lemma key_pressed_Z_octave (kb : MusicalKeyboard) :
    (key_pressed kb Key.Z).2.octave =
      if kb.octave > -2 then kb.octave - 1 else kb.octave := by
  simp only [key_pressed]; split <;> rfl

lemma key_pressed_X_octave (kb : MusicalKeyboard) :
    (key_pressed kb Key.X).2.octave =
      if kb.octave < 12 then kb.octave + 1 else kb.octave := by
  simp only [key_pressed]; split <;> rfl

lemma key_pressed_octave_bounds (kb : MusicalKeyboard) (k : Key)
    (h1 : -2 ≤ kb.octave) (h2 : kb.octave ≤ 12) :
    -2 ≤ (key_pressed kb k).2.octave ∧ (key_pressed kb k).2.octave ≤ 12 := by
  by_cases hz : k = Key.Z
  · subst hz; rw [key_pressed_Z_octave]
    by_cases h : kb.octave > -2
    · rw [if_pos h]; omega
    · rw [if_neg h]; omega
  by_cases hx : k = Key.X
  · subst hx; rw [key_pressed_X_octave]
    by_cases h : kb.octave < 12
    · rw [if_pos h]; omega
    · rw [if_neg h]; omega
  rw [key_pressed_octave_of_note kb k hz hx]; exact ⟨h1, h2⟩

lemma runPress_octave_bounds (ks : List Key) (kb : MusicalKeyboard)
    (h1 : -2 ≤ kb.octave) (h2 : kb.octave ≤ 12) :
    -2 ≤ (runPress kb ks).octave ∧ (runPress kb ks).octave ≤ 12 := by
  induction ks generalizing kb with
  | nil => exact ⟨h1, h2⟩
  | cons k ks ih =>
    have hb := key_pressed_octave_bounds kb k h1 h2
    exact ih _ hb.1 hb.2

/-- C6: starting from an octave in `[-2, 12]`, any sequence of presses keeps
the octave in `[-2, 12]`; Z decrements exactly when the octave exceeds `-2`,
X increments exactly when it is below `12`, and no other pressed key changes
the octave. -/
theorem octave_bounds (kb : MusicalKeyboard) (ks : List Key)
    (h1 : -2 ≤ kb.octave) (h2 : kb.octave ≤ 12) :
    (-2 ≤ (runPress kb ks).octave ∧ (runPress kb ks).octave ≤ 12) ∧
    ((key_pressed kb Key.Z).2.octave =
        if kb.octave > -2 then kb.octave - 1 else kb.octave) ∧
    ((key_pressed kb Key.X).2.octave =
        if kb.octave < 12 then kb.octave + 1 else kb.octave) ∧
    (∀ k, k ≠ Key.Z → k ≠ Key.X → (key_pressed kb k).2.octave = kb.octave) ∧
    (∀ k, (key_released kb k).2.octave = kb.octave) :=
  ⟨runPress_octave_bounds ks kb h1 h2, key_pressed_Z_octave kb,
   key_pressed_X_octave kb, fun k a b => key_pressed_octave_of_note kb k a b,
   fun k => maybe_note_off_octave kb k⟩

/-- Witness for C6 at the default keyboard and a single X press. -/
theorem octave_bounds_witness :
    -2 ≤ (runPress defaultKb [Key.X]).octave ∧
    (runPress defaultKb [Key.X]).octave ≤ 12 :=
  (octave_bounds defaultKb [Key.X] (by decide) (by decide)).1

lemma key_pressed_C_velocity (kb : MusicalKeyboard) :
    (key_pressed kb Key.C).2.velocity =
      if kb.velocity > 0 then kb.velocity - 5/100 else kb.velocity := by
  simp only [key_pressed]; split <;> rfl

lemma key_pressed_V_velocity (kb : MusicalKeyboard) :
    (key_pressed kb Key.V).2.velocity =
      if kb.velocity < 1 then kb.velocity + 5/100 else kb.velocity := by
  simp only [key_pressed]; split <;> rfl

lemma key_pressed_velocity_of_note (kb : MusicalKeyboard) (k : Key)
    (hc : k ≠ Key.C) (hv : k ≠ Key.V) :
    (key_pressed kb k).2.velocity = kb.velocity := by
  cases k <;> first
    | exact absurd rfl hc
    | exact absurd rfl hv
    | exact maybe_note_on_velocity kb _
    | (simp only [key_pressed]; split <;> rfl)

lemma key_pressed_velocity_bounds (kb : MusicalKeyboard) (k : Key)
    (h1 : -(5/100) < kb.velocity) (h2 : kb.velocity < 1 + 5/100) :
    -(5/100) < (key_pressed kb k).2.velocity ∧
    (key_pressed kb k).2.velocity < 1 + 5/100 := by
  by_cases hc : k = Key.C
  · subst hc; rw [key_pressed_C_velocity]
    by_cases h : kb.velocity > 0
    · rw [if_pos h]; constructor <;> linarith
    · rw [if_neg h]; exact ⟨h1, h2⟩
  by_cases hv : k = Key.V
  · subst hv; rw [key_pressed_V_velocity]
    by_cases h : kb.velocity < 1
    · rw [if_pos h]; constructor <;> linarith
    · rw [if_neg h]; exact ⟨h1, h2⟩
  rw [key_pressed_velocity_of_note kb k hc hv]; exact ⟨h1, h2⟩

lemma runPress_velocity_bounds (ks : List Key) (kb : MusicalKeyboard)
    (h1 : -(5/100) < kb.velocity) (h2 : kb.velocity < 1 + 5/100) :
    -(5/100) < (runPress kb ks).velocity ∧
    (runPress kb ks).velocity < 1 + 5/100 := by
  induction ks generalizing kb with
  | nil => exact ⟨h1, h2⟩
  | cons k ks ih =>
    have hb := key_pressed_velocity_bounds kb k h1 h2
    exact ih _ hb.1 hb.2

/-- C7 (amended): starting from a velocity in `[0, 1]`, any sequence of
presses keeps the velocity strictly between `-0.05` and `1.05`; a C press
leaves the velocity unchanged when it is `≤ 0`, and a V press leaves it
unchanged when it is `≥ 1`.  (The claim's bound `≤ 1` is refuted by
`velocity_guard_overshoot` below: the guard tests the value before the
increment, so a press from `0.99` yields `1.04`.) -/
theorem velocity_guard (kb : MusicalKeyboard) (ks : List Key)
    (h1 : 0 ≤ kb.velocity) (h2 : kb.velocity ≤ 1) :
    (-(5/100) < (runPress kb ks).velocity ∧
     (runPress kb ks).velocity < 1 + 5/100) ∧
    (kb.velocity ≤ 0 → (key_pressed kb Key.C).2.velocity = kb.velocity) ∧
    (1 ≤ kb.velocity → (key_pressed kb Key.V).2.velocity = kb.velocity) := by
  refine ⟨runPress_velocity_bounds ks kb (by linarith) (by linarith), ?_, ?_⟩
  · intro h
    rw [key_pressed_C_velocity, if_neg (by linarith)]
  · intro h
    rw [key_pressed_V_velocity, if_neg (by linarith)]

/-- Witness for C7 at the default keyboard: bounds after a V press, the
blocked V press at velocity 1, and the blocked C press at velocity 0. -/
theorem velocity_guard_witness :
    (-(5/100) < (runPress defaultKb [Key.V]).velocity ∧
     (runPress defaultKb [Key.V]).velocity < 1 + 5/100) ∧
    (key_pressed defaultKb Key.V).2.velocity = defaultKb.velocity ∧
    (key_pressed (new 2 0) Key.C).2.velocity = (new 2 0).velocity :=
  ⟨(velocity_guard defaultKb [Key.V] (by norm_num [defaultKb, new])
      (by norm_num [defaultKb, new])).1,
   (velocity_guard defaultKb [] (by norm_num [defaultKb, new])
      (by norm_num [defaultKb, new])).2.2 (by norm_num [defaultKb, new]),
   (velocity_guard (new 2 0) [] (by norm_num [new]) (by norm_num [new])).2.1
      (by norm_num [new])⟩

/-- Counterexample to C7 as stated: from velocity `0.99` (inside `[0, 1]`)
a single V press produces velocity `1.04 > 1`. -/
theorem velocity_guard_overshoot :
    (key_pressed (new 2 (99/100)) Key.V).2.velocity = 26/25 ∧
    1 < (key_pressed (new 2 (99/100)) Key.V).2.velocity := by
  constructor <;> norm_num [key_pressed_V_velocity, new]

/-- Invariant: every key present in the pressed map is a note key. -/
def onlyNoteKeysPressed (kb : MusicalKeyboard) : Prop :=
  ∀ k, noteTable k = none → kb.currently_pressed_keys k = none

lemma key_pressed_pressed_other (kb : MusicalKeyboard) (k k2 : Key)
    (hne : k2 ≠ k) :
    (key_pressed kb k).2.currently_pressed_keys k2 =
      kb.currently_pressed_keys k2 := by
  cases k <;> first
    | exact maybe_note_on_pressed_other kb _ k2 hne
    | (simp only [key_pressed]; split <;> rfl)

lemma key_pressed_pressed_self_modifier (kb : MusicalKeyboard) (k : Key)
    (hk : noteTable k = none) :
    (key_pressed kb k).2.currently_pressed_keys k =
      kb.currently_pressed_keys k := by
  cases k <;> first
    | exact absurd hk (by decide)
    | (simp only [key_pressed]; split <;> rfl)

lemma maybe_note_off_pressed_self (kb : MusicalKeyboard) (key : Key) :
    (maybe_note_off kb key).2.currently_pressed_keys key = none ∨
    (maybe_note_off kb key).2 = kb := by
  unfold maybe_note_off
  rcases h : maybe_note kb key with _ | ⟨l, o⟩
  · right; rfl
  · left
    rcases h2 : kb.currently_pressed_keys key with _ | o2 <;>
      simp [mapRemove, h2]

lemma step_preserves_onlyNote (kb : MusicalKeyboard) (e : Ev)
    (h : onlyNoteKeysPressed kb) : onlyNoteKeysPressed (step kb e) := by
  intro k2 hk2
  cases e with
  | press k =>
    by_cases hne : k2 = k
    · subst hne
      show (key_pressed kb k2).2.currently_pressed_keys k2 = none
      rw [key_pressed_pressed_self_modifier kb k2 hk2]
      exact h k2 hk2
    · show (key_pressed kb k).2.currently_pressed_keys k2 = none
      rw [key_pressed_pressed_other kb k k2 hne]
      exact h k2 hk2
  | release k =>
    by_cases hne : k2 = k
    · subst hne
      rcases maybe_note_off_pressed_self kb k2 with h1 | h1
      · exact h1
      · show (maybe_note_off kb k2).2.currently_pressed_keys k2 = none
        rw [h1]; exact h k2 hk2
    · show (maybe_note_off kb k).2.currently_pressed_keys k2 = none
      rw [maybe_note_off_pressed_other kb k k2 hne]
      exact h k2 hk2

lemma run_preserves_onlyNote (evs : List Ev) (kb : MusicalKeyboard)
    (h : onlyNoteKeysPressed kb) : onlyNoteKeysPressed (run kb evs) := by
  induction evs generalizing kb with
  | nil => exact h
  | cons e evs ih => exact ih _ (step_preserves_onlyNote kb e h)

/-- C8: in every state reachable from a fresh keyboard, pressing or
releasing a modifier key (Z, X, C, V) emits no note event, and no modifier
key is present in the pressed map. -/
theorem modifier_isolation (o : Int) (v : ℚ) (evs : List Ev) :
    ((key_pressed (run (new o v) evs) Key.Z).1 = none ∧
     (key_released (run (new o v) evs) Key.Z).1 = none ∧
     (run (new o v) evs).currently_pressed_keys Key.Z = none) ∧
    ((key_pressed (run (new o v) evs) Key.X).1 = none ∧
     (key_released (run (new o v) evs) Key.X).1 = none ∧
     (run (new o v) evs).currently_pressed_keys Key.X = none) ∧
    ((key_pressed (run (new o v) evs) Key.C).1 = none ∧
     (key_released (run (new o v) evs) Key.C).1 = none ∧
     (run (new o v) evs).currently_pressed_keys Key.C = none) ∧
    ((key_pressed (run (new o v) evs) Key.V).1 = none ∧
     (key_released (run (new o v) evs) Key.V).1 = none ∧
     (run (new o v) evs).currently_pressed_keys Key.V = none) := by
  have h := run_preserves_onlyNote evs (new o v) (fun k _ => rfl)
  exact ⟨⟨rfl, rfl, h Key.Z rfl⟩, ⟨rfl, rfl, h Key.X rfl⟩,
         ⟨rfl, rfl, h Key.C rfl⟩, ⟨rfl, rfl, h Key.V rfl⟩⟩

/-- C9: in every state reachable from a fresh keyboard, the pressed map has
at most 18 entries (only the 18 note keys are ever inserted). -/
theorem pressed_at_most_18 (o : Int) (v : ℚ) (evs : List Ev) :
    pressedCount (run (new o v) evs) ≤ 18 := by
  have h := run_preserves_onlyNote evs (new o v) (fun k _ => rfl)
  calc pressedCount (run (new o v) evs)
      ≤ (Finset.univ.filter (fun k => (noteTable k).isSome)).card := by
        apply Finset.card_le_card
        intro k hk
        simp only [Finset.mem_filter, Finset.mem_univ, true_and] at hk ⊢
        by_contra hno
        rw [h k (Option.not_isSome_iff_eq_none.mp hno)] at hk
        simp at hk
    _ = 18 := by decide

/-- C1 (refuting the claim as stated): from the default keyboard, press A
(emits `NoteOn` at octave 2), press X (base octave becomes 3), press A again
(emits nothing, but overwrites the stored octave with 3); the final release
of A emits `NoteOff` at octave 3, not the original 2. -/
theorem repeat_press_overwrites_stored_octave :
    (key_pressed defaultKb Key.A).1 =
      some { letter := Letter.C, octave := 2, velocity := 1 } ∧
    (key_pressed (runPress defaultKb [Key.A, Key.X]) Key.A).1 = none ∧
    (runPress defaultKb [Key.A, Key.X, Key.A]).currently_pressed_keys Key.A =
      some 3 ∧
    (key_released (runPress defaultKb [Key.A, Key.X, Key.A]) Key.A).1 =
      some { letter := Letter.C, octave := 3 } := by
  refine ⟨rfl, rfl, rfl, rfl⟩

/-- C2 (refuting the claim as stated): with A held since base octave 2 and
the base octave now 3, a repeated press of A emits nothing but mutates the
state: the stored octave for A changes from 2 to 3. -/
theorem repeat_press_changes_state :
    (runPress defaultKb [Key.A, Key.X]).currently_pressed_keys Key.A =
      some 2 ∧
    (key_pressed (runPress defaultKb [Key.A, Key.X]) Key.A).1 = none ∧
    (key_pressed (runPress defaultKb [Key.A, Key.X]) Key.A).2.currently_pressed_keys
      Key.A = some 3 := by
  refine ⟨rfl, rfl, rfl⟩
